import Mathlib

/-!
Verification of `enumerators.py` (idascripts): enumeration utilities layered
on a disassembler host database.  The host API (`idaapi` / `idc`) is modelled
as a record of abstract functions (`Host`); the module's own code — argument
parsing (`getrange`, `getstringpos`, `getcallablepos`) and the enumerator
generators — is embedded shallowly.  Generators are modelled as fuel-bounded
functions producing the list of yielded addresses; enumerators that can raise
(`Texts`, `Binaries`, `BytesThat`) return `Except String (List Nat)`.
-/

set_option autoImplicit false

/-- `idaapi.BADADDR`, the end-of-space / no-further-match sentinel. -/
def BADADDR : Nat := 0xFFFFFFFFFFFFFFFF

/-- `idaapi.SEARCH_DOWN` flag. -/
def SEARCH_DOWN : Nat := 1

/-- `idaapi.SEARCH_NEXT` flag. -/
def SEARCH_NEXT : Nat := 2

/-- `idaapi.FUNC_TAIL` flag marking a non-head function chunk. -/
def FUNC_TAIL : Nat := 0x8000

/-- An `area_t` / `func_t` style object: a chunk or area with start, end and
flags fields, as used by `get_fchunk`, `get_next_fchunk`, `get_next_func`. -/
structure FChunk where
  startEA : Nat
  endEA : Nat
  flags : Nat
  deriving DecidableEq

/-- One element of the heterogeneous argument list of an enumerator call.
Tuples are modelled as pairs of addresses (the module's documented usage);
a tuple of a different arity would be returned verbatim by `getrange` and
only fail at the caller's unpacking, outside this model.  A callable is a
predicate on flag words, as consumed by `BytesThat`. -/
inductive Arg where
  | tup (first last : Nat)
  | area (startEA endEA : Nat)
  | int (n : Nat)
  | str (s : String)
  | func (p : Nat → Bool)

/-- The host analysis database: the `idaapi`/`idc` functions the module calls.
Each field mirrors one host primitive with the argument shapes used at the
call sites in `enumerators.py`. -/
structure Host where
  read_selection : Bool × Nat × Nat
  here : Nat
  getFlags : Nat → Nat
  isUnknown : Nat → Bool
  isHead : Nat → Bool
  isTail : Nat → Bool
  isCode : Nat → Bool
  find_text : Nat → String → Nat → Nat
  find_binary : Nat → Nat → String → Nat → Nat → Nat
  find_unknown : Nat → Nat → Nat
  find_code : Nat → Nat → Nat
  next_head : Nat → Nat → Nat
  next_not_tail : Nat → Nat
  nextthat : Nat → Nat → (Nat → Bool) → Nat
  get_fchunk : Nat → Option FChunk
  get_next_fchunk : Nat → Option FChunk
  get_next_func : Nat → Option FChunk
  ItemSize : Nat → Nat
  get_data_elsize : Nat → Nat → Nat

/-- `args[0] if len(args)>0 and type(args[0])==types.IntType else None`. -/
def argfirstOf : List Arg → Option Nat
  | Arg.int n :: _ => some n
  | _ => none

/-- `args[1] if len(args)>1 and type(args[1])==types.IntType else None`. -/
def arglastOf : List Arg → Option Nat
  | _ :: Arg.int n :: _ => some n
  | _ => none

/-- `getrange(args)`: resolve the `(first, last)` address range from a raw
argument list.  A leading tuple is returned verbatim; a leading `area_t`
yields its bounds; otherwise the first two slots are scanned for bare
integers, falling back to the UI selection or the cursor position. -/
def getrange (host : Host) (args : List Arg) : Nat × Nat :=
  match args with
  | Arg.tup a b :: _ => (a, b)
  | Arg.area s e :: _ => (s, e)
  | _ =>
    match argfirstOf args, arglastOf args with
    | none, _ =>
      if host.read_selection.1 then (host.read_selection.2.1, host.read_selection.2.2)
      else (host.here, BADADDR)
    | some f, none => (f, BADADDR)
    | some f, some l => (f, l)

/-- Is this argument a string?  (`type(x)==types.StringType`) -/
def isStringArg : Arg → Bool
  | Arg.str _ => true
  | _ => false

/-- Is this argument a callable?  (`type(x)==types.FunctionType`) -/
def isCallableArg : Arg → Bool
  | Arg.func _ => true
  | _ => false

/-- Is this argument an explicit range (tuple or `area_t`)? -/
def isRangeArg : Arg → Bool
  | Arg.tup _ _ => true
  | Arg.area _ _ => true
  | _ => false

/-- Is this argument a bare integer? -/
def isIntArg : Arg → Bool
  | Arg.int _ => true
  | _ => false

/-- `getstringpos(args)` combined with the lookup `args[i]`: the index and
value of the first string argument, or `none` (the source returns -1). -/
def findString : List Arg → Option (Nat × String)
  | [] => none
  | Arg.str s :: _ => some (0, s)
  | _ :: rest => Option.map (fun p => (p.1 + 1, p.2)) (findString rest)

/-- `getcallablepos(args)` combined with the lookup `args[i]`: the first
callable argument, or `none` (the source returns -1). -/
def findCallable : List Arg → Option (Nat → Bool)
  | [] => none
  | Arg.func p :: _ => some p
  | _ :: rest => findCallable rest

/-- The shared iteration shape `while ea != BADADDR and ea < last: yield ea;
ea = step(ea)`, with a fuel bound standing in for the unbounded Python loop. -/
def stepLoop (step : Nat → Nat) (last : Nat) : Nat → Nat → List Nat
  | 0, _ => []
  | fuel + 1, ea =>
    if ea ≠ BADADDR ∧ ea < last then ea :: stepLoop step last fuel (step ea)
    else []

/-- `Texts(*args)`: text-search matches.  Raises when no search string is
among the arguments.  A non-integer value in the slot after the search string
would be a host-level type error in the source (`SEARCH_DOWN|flags`); the
model reads an integer flag word or the default 0. -/
def Texts (host : Host) (args : List Arg) (fuel : Nat) : Except String (List Nat) :=
  let fl := getrange host args
  let first := fl.1
  let last := fl.2
  match findString args with
  | none => Except.error "missing searchstring"
  | some (i, searchstr) =>
    let flags := match args[i + 1]? with
      | some (Arg.int n) => n
      | _ => 0
    let ea := host.find_text first searchstr (SEARCH_DOWN ||| flags)
    Except.ok (stepLoop
      (fun e => host.find_text (host.next_head e last) searchstr (SEARCH_DOWN ||| flags))
      last fuel ea)

/-- The body of the `NonFuncs` while loop, fuel-bounded. -/
def nonFuncsLoop (host : Host) (last : Nat) : Nat → Nat → List Nat
  | 0, _ => []
  | fuel + 1, ea =>
    if ea ≠ BADADDR ∧ ea < last then
      let nextcode := host.find_code ea (SEARCH_NEXT ||| SEARCH_DOWN)
      match host.get_fchunk ea with
      | some thischunk => nonFuncsLoop host last fuel thischunk.endEA
      | none =>
        if host.isCode (host.getFlags ea) then
          ea :: nonFuncsLoop host last fuel (host.next_head ea last)
        else
          match host.get_next_fchunk ea with
          | none => []
          | some nextchunk =>
            if nextcode < nextchunk.startEA then
              nextcode :: nonFuncsLoop host last fuel nextcode
            else
              nonFuncsLoop host last fuel nextchunk.endEA
    else []

/-- `NonFuncs(*args)`: code addresses not inside any function chunk. -/
def NonFuncs (host : Host) (args : List Arg) (fuel : Nat) : List Nat :=
  let fl := getrange host args
  nonFuncsLoop host fl.2 fuel fl.1

/-- `Undefs(*args)`: undefined bytes in the range.  The first byte is tested
explicitly since `find_unknown` implicitly sets `SEARCH_NEXT`. -/
def Undefs (host : Host) (args : List Arg) (fuel : Nat) : List Nat :=
  let fl := getrange host args
  let first := fl.1
  let last := fl.2
  let ea :=
    if first < last ∧ host.isUnknown (host.getFlags first) = false then
      host.find_unknown first SEARCH_DOWN
    else first
  stepLoop (fun e => host.find_unknown e SEARCH_DOWN) last fuel ea

/-- `Binaries(*args)`: binary-pattern search matches.  Raises when no search
string is among the arguments. -/
def Binaries (host : Host) (args : List Arg) (fuel : Nat) : Except String (List Nat) :=
  let fl := getrange host args
  let first := fl.1
  let last := fl.2
  match findString args with
  | none => Except.error "missing searchstring"
  | some (_, searchstr) =>
    let ea := host.find_binary first last searchstr 16 SEARCH_DOWN
    Except.ok (stepLoop
      (fun e => host.find_binary e last searchstr 16 (SEARCH_DOWN ||| SEARCH_NEXT))
      last fuel ea)

/-- The item enumeration of `ArrayItems` at a resolved base address:
`n = ItemSize(ea) / get_data_elsize(ea, getFlags(ea))` items of stride the
element size.  (`/` is Python 2 integer division on these integer sizes.) -/
def arrayItemsAt (host : Host) (ea : Nat) : List Nat :=
  let s := host.ItemSize ea
  let ss := host.get_data_elsize ea (host.getFlags ea)
  let n := s / ss
  (List.range n).map (fun i => ea + i * ss)

/-- `ArrayItems(*args)`: items of the array at `args[0]` (defaulting to the
cursor).  The source takes `args[0]` verbatim as an address; a non-integer
first argument is a host-level type error, modelled as `none`. -/
def ArrayItems (host : Host) (args : List Arg) : Option (List Nat) :=
  match args with
  | [] => some (arrayItemsAt host host.here)
  | Arg.int ea :: _ => some (arrayItemsAt host ea)
  | _ :: _ => none

/-- `Addrs(*args)`: every address of the resolved range, `range(first, last)`. -/
def Addrs (host : Host) (args : List Arg) : List Nat :=
  let fl := getrange host args
  List.range' fl.1 (fl.2 - fl.1)

/-- `BytesThat(*args)`: addresses whose flags satisfy the callable argument.
Raises when no callable is among the arguments. -/
def BytesThat (host : Host) (args : List Arg) (fuel : Nat) : Except String (List Nat) :=
  let fl := getrange host args
  let first := fl.1
  let last := fl.2
  match findCallable args with
  | none => Except.error "missing callable"
  | some p =>
    let ea :=
      if first < last ∧ p (host.getFlags first) = false then host.nextthat first last p
      else first
    Except.ok (stepLoop (fun e => host.nextthat e last p) last fuel ea)

/-- `Heads(*args)`: all heads in the resolved range. -/
def Heads (host : Host) (args : List Arg) (fuel : Nat) : List Nat :=
  let fl := getrange host args
  let first := fl.1
  let last := fl.2
  let ea :=
    if first < last ∧ host.isHead (host.getFlags first) = false then host.next_head first last
    else first
  stepLoop (fun e => host.next_head e last) last fuel ea

/-- `NotTails(*args)`: all non-tail addresses in the resolved range. -/
def NotTails (host : Host) (args : List Arg) (fuel : Nat) : List Nat :=
  let fl := getrange host args
  let first := fl.1
  let last := fl.2
  let ea :=
    if first < last ∧ host.isTail (host.getFlags first) = true then host.next_not_tail first
    else first
  stepLoop host.next_not_tail last fuel ea

/-- The `Funcs` pre-loop skipping chunks flagged `FUNC_TAIL`, fuel-bounded. -/
def skipTails (host : Host) (last : Nat) : Nat → Option FChunk → Option FChunk
  | _, none => none
  | 0, some c => some c
  | fuel + 1, some c =>
    if c.startEA < last ∧ c.flags &&& FUNC_TAIL ≠ 0 then
      skipTails host last fuel (host.get_next_fchunk c.startEA)
    else some c

/-- The main `Funcs` yield loop over `get_next_func`, fuel-bounded. -/
def funcLoop (host : Host) (last : Nat) : Nat → Option FChunk → List Nat
  | _, none => []
  | 0, some _ => []
  | fuel + 1, some f =>
    if f.startEA < last then f.startEA :: funcLoop host last fuel (host.get_next_func f.startEA)
    else []

/-- `Funcs(*args)`: function start addresses.  Seeds from the chunk containing
`first` (or the next chunk after it), skips tail-flagged chunks, then walks
`get_next_func`. -/
def Funcs (host : Host) (args : List Arg) (fuel : Nat) : List Nat :=
  let fl := getrange host args
  let first := fl.1
  let last := fl.2
  let chunk :=
    match host.get_fchunk first with
    | some c => some c
    | none => host.get_next_fchunk first
  funcLoop host last fuel (skipTails host last fuel chunk)

/-- The `FChunks` yield loop over `get_next_fchunk`, fuel-bounded. -/
def fchunkLoop (host : Host) (last : Nat) : Nat → Option FChunk → List Nat
  | _, none => []
  | 0, some _ => []
  | fuel + 1, some c =>
    if c.startEA < last then c.startEA :: fchunkLoop host last fuel (host.get_next_fchunk c.startEA)
    else []

/-- `FChunks(*args)`: start addresses of all function chunks in the range. -/
def FChunks (host : Host) (args : List Arg) (fuel : Nat) : List Nat :=
  let fl := getrange host args
  let chunk :=
    match host.get_fchunk fl.1 with
    | some c => some c
    | none => host.get_next_fchunk fl.1
  fchunkLoop host fl.2 fuel chunk

/-! ### Concrete host models used in scenario theorems and witnesses -/

/-- A trivial host: no selection, cursor at 0, every find/step primitive
exhausted (`BADADDR`), no chunks, empty items. -/
def host0 : Host where
  read_selection := (false, 0, 0)
  here := 0
  getFlags := fun _ => 0
  isUnknown := fun _ => false
  isHead := fun _ => false
  isTail := fun _ => false
  isCode := fun _ => false
  find_text := fun _ _ _ => BADADDR
  find_binary := fun _ _ _ _ _ => BADADDR
  find_unknown := fun _ _ => BADADDR
  find_code := fun _ _ => BADADDR
  next_head := fun _ _ => BADADDR
  next_not_tail := fun _ => BADADDR
  nextthat := fun _ _ _ => BADADDR
  get_fchunk := fun _ => none
  get_next_fchunk := fun _ => none
  get_next_func := fun _ => none
  ItemSize := fun _ => 0
  get_data_elsize := fun _ _ => 1

/-- Like `host0` but with an active UI selection covering `[0x100, 0x200)`. -/
def hostSel : Host :=
  { host0 with read_selection := (true, 0x100, 0x200) }

/-- Host for the `Undefs` scenario: exactly the addresses 0x1010 and 0x1020
are undefined; `find_unknown` steps to the next one strictly beyond its
starting point (it implicitly sets `SEARCH_NEXT`). -/
def hostC7 : Host :=
  { host0 with
    getFlags := fun ea => if ea = 0x1010 ∨ ea = 0x1020 then 0 else 0x400
    isUnknown := fun f => f = 0
    find_unknown := fun ea _ =>
      if ea < 0x1010 then 0x1010 else if ea < 0x1020 then 0x1020 else BADADDR }

/-- Host for the `ArrayItems` scenario: every item has size 16 and element
size 4. -/
def hostC8 : Host :=
  { host0 with ItemSize := fun _ => 16, get_data_elsize := fun _ _ => 4 }

/-- Head chunk of the single function in the `Funcs` scenario. -/
def headChunk : FChunk where
  startEA := 0x1000
  endEA := 0x1100
  flags := 0

/-- Tail-flagged chunk of the single function in the `Funcs` scenario. -/
def tailChunk : FChunk where
  startEA := 0x2000
  endEA := 0x2100
  flags := FUNC_TAIL

/-- Host for the `Funcs` scenario: one function owning `headChunk` and
`tailChunk`, and no further functions. -/
def hostC9 : Host :=
  { host0 with
    get_fchunk := fun x =>
      if 0x1000 ≤ x ∧ x < 0x1100 then some headChunk
      else if 0x2000 ≤ x ∧ x < 0x2100 then some tailChunk
      else none
    get_next_fchunk := fun x =>
      if x < 0x1000 then some headChunk
      else if x < 0x2000 then some tailChunk
      else none
    get_next_func := fun _ => none }

/-- Tail-flagged chunk of the tail-before-head `Funcs` scenario: the tail
chunk lies at lower addresses than the head chunk. -/
def tailChunkB : FChunk where
  startEA := 0x1000
  endEA := 0x1100
  flags := FUNC_TAIL

/-- Head chunk of the tail-before-head `Funcs` scenario. -/
def headChunkB : FChunk where
  startEA := 0x2000
  endEA := 0x2100
  flags := 0

/-- Host for the tail-before-head `Funcs` scenario: one function owning
`tailChunkB` (at 0x1000, flagged `FUNC_TAIL`) and `headChunkB` (at 0x2000),
and no further functions.  Seeding below 0x1000 finds the tail chunk first,
so the `FUNC_TAIL` pre-loop must skip it. -/
def hostC9b : Host :=
  { host0 with
    get_fchunk := fun x =>
      if 0x1000 ≤ x ∧ x < 0x1100 then some tailChunkB
      else if 0x2000 ≤ x ∧ x < 0x2100 then some headChunkB
      else none
    get_next_fchunk := fun x =>
      if x < 0x1000 then some tailChunkB
      else if x < 0x2000 then some headChunkB
      else none
    get_next_func := fun _ => none }

/-! ### Helper lemmas -/

/-- Every address produced by the shared step loop passed the guard
`ea != BADADDR and ea < last` just before being yielded. -/
theorem stepLoop_mem {step : Nat → Nat} {last : Nat} :
    ∀ (fuel ea x : Nat), x ∈ stepLoop step last fuel ea → x < last ∧ x ≠ BADADDR := by
  intro fuel
  induction fuel with
  | zero => intro ea x hx; simp [stepLoop] at hx
  | succ n ih =>
    intro ea x hx
    by_cases h : ea ≠ BADADDR ∧ ea < last
    · rw [stepLoop, if_pos h] at hx
      rcases List.mem_cons.mp hx with rfl | hx
      · exact ⟨h.2, h.1⟩
      · exact ih _ _ hx
    · rw [stepLoop, if_neg h] at hx
      simp at hx

/-- The shared step loop yields nothing when its guard fails at entry. -/
theorem stepLoop_eq_nil {step : Nat → Nat} {last : Nat} (fuel ea : Nat)
    (h : ¬(ea ≠ BADADDR ∧ ea < last)) : stepLoop step last fuel ea = [] := by
  cases fuel with
  | zero => rfl
  | succ n => rw [stepLoop, if_neg h]

/-- The `NonFuncs` loop yields nothing when its guard fails at entry. -/
theorem nonFuncsLoop_eq_nil {host : Host} {last : Nat} (fuel ea : Nat)
    (h : ¬(ea ≠ BADADDR ∧ ea < last)) : nonFuncsLoop host last fuel ea = [] := by
  cases fuel with
  | zero => rfl
  | succ n => rw [nonFuncsLoop, if_neg h]

/-- An argument list with no string argument has no string position. -/
theorem findString_eq_none :
    ∀ {args : List Arg}, (∀ a ∈ args, isStringArg a = false) → findString args = none := by
  intro args
  induction args with
  | nil => intro _; rfl
  | cons a rest ih =>
    intro h
    have hrest := ih fun x hx => h x (List.mem_cons_of_mem _ hx)
    have ha := h a (List.mem_cons_self _ _)
    cases a <;> simp_all [findString, isStringArg]

/-- An argument list with no callable argument has no callable position. -/
theorem findCallable_eq_none :
    ∀ {args : List Arg}, (∀ a ∈ args, isCallableArg a = false) → findCallable args = none := by
  intro args
  induction args with
  | nil => intro _; rfl
  | cons a rest ih =>
    intro h
    have hrest := ih fun x hx => h x (List.mem_cons_of_mem _ hx)
    have ha := h a (List.mem_cons_self _ _)
    cases a <;> simp_all [findCallable, isCallableArg]

/-! ### Claim theorems -/

/-- Claim C1, counterexample: an argument list containing the explicit range
pair `(0x1000, 0x2000)` in its second position, after a bare integer, does
not make `getrange` return that pair — only a pair in the first position is
honoured, so the call resolves to `(5, BADADDR)` instead. -/
theorem c1_counterexample :
    getrange host0 [Arg.int 5, Arg.tup 0x1000 0x2000] = (5, BADADDR) ∧
    getrange host0 [Arg.int 5, Arg.tup 0x1000 0x2000] ≠ (0x1000, 0x2000) := by
  constructor
  · rfl
  · decide

/-- Claim C1, amended: for every argument list whose FIRST element is an
explicit two-element range pair, `getrange` returns exactly that pair, no
matter which other arguments follow and whatever the host state. -/
theorem c1_first_tuple_verbatim (host : Host) (a b : Nat) (rest : List Arg) :
    getrange host (Arg.tup a b :: rest) = (a, b) := rfl

/-- Claim C2: when the argument list contains no string, `Texts` and
`Binaries` fail with the missing-searchstring error, and when it contains no
callable, `BytesThat` fails with the missing-callable error; in each case the
error is produced by the setup code ahead of the iteration loop, so no
sequence element is ever yielded first. -/
theorem c2_missing_argument (host : Host) (args : List Arg) (fuel : Nat)
    (hs : ∀ a ∈ args, isStringArg a = false)
    (hc : ∀ a ∈ args, isCallableArg a = false) :
    Texts host args fuel = Except.error "missing searchstring" ∧
    Binaries host args fuel = Except.error "missing searchstring" ∧
    BytesThat host args fuel = Except.error "missing callable" := by
  have h1 : findString args = none := findString_eq_none hs
  have h2 : findCallable args = none := findCallable_eq_none hc
  refine ⟨?_, ?_, ?_⟩ <;> simp [Texts, Binaries, BytesThat, h1, h2]

/-- Claim C2, witness at the concrete call `(5)`: no string and no callable
among the arguments, so all three enumerators fail fast. -/
theorem c2_missing_argument_witness :
    Texts host0 [Arg.int 5] 10 = Except.error "missing searchstring" ∧
    Binaries host0 [Arg.int 5] 10 = Except.error "missing searchstring" ∧
    BytesThat host0 [Arg.int 5] 10 = Except.error "missing callable" :=
  c2_missing_argument host0 [Arg.int 5] 10 (by decide) (by decide)

/-- Claim C4: when the first argument is a bare integer and the second slot
holds no integer, `getrange` returns `(argfirst, BADADDR)`, for every host —
in particular an active UI selection is ignored. -/
theorem c4_first_int_only (host : Host) (n : Nat) (rest : List Arg)
    (h : arglastOf (Arg.int n :: rest) = none) :
    getrange host (Arg.int n :: rest) = (n, BADADDR) := by
  simp [getrange, argfirstOf, h]

/-- Claim C4, witness: the call `(5, "x")` on a host with an active selection
still resolves to `(5, BADADDR)`. -/
theorem c4_first_int_only_witness :
    arglastOf [Arg.int 5, Arg.str "x"] = none ∧
    getrange hostSel [Arg.int 5, Arg.str "x"] = (5, BADADDR) :=
  ⟨rfl, c4_first_int_only hostSel 5 [Arg.str "x"] rfl⟩

/-- Claim C5: for an argument list containing no explicit range and no bare
integer, `getrange` returns the selection bounds when a UI selection is
active, and `(here, BADADDR)` otherwise. -/
theorem c5_selection_fallback (host : Host) (args : List Arg) (sf sl : Nat)
    (hr : ∀ a ∈ args, isRangeArg a = false)
    (hi : ∀ a ∈ args, isIntArg a = false) :
    (host.read_selection = (true, sf, sl) → getrange host args = (sf, sl)) ∧
    (host.read_selection.1 = false → getrange host args = (host.here, BADADDR)) := by
  have hfirst : argfirstOf args = none := by
    cases args with
    | nil => rfl
    | cons a rest =>
      have := hi a (List.mem_cons_self _ _)
      cases a <;> simp_all [argfirstOf, isIntArg]
  have hform : getrange host args =
      (if host.read_selection.1 then (host.read_selection.2.1, host.read_selection.2.2)
       else (host.here, BADADDR)) := by
    cases args with
    | nil => rfl
    | cons a rest =>
      have hra := hr a (List.mem_cons_self _ _)
      cases a <;> simp_all [getrange, argfirstOf, isRangeArg]
  constructor
  · intro hsel
    rw [hform, hsel]
    simp
  · intro hsel
    rw [hform, hsel]
    simp

/-- Claim C5, witness: the call `("p")` (a lone string) on a host with an
active selection `[0x100, 0x200)` resolves to the selection bounds. -/
theorem c5_selection_fallback_witness :
    getrange hostSel [Arg.str "p"] = (0x100, 0x200) :=
  (c5_selection_fallback hostSel [Arg.str "p"] 0x100 0x200 (by decide) (by decide)).1 rfl

/-- A well-formed half-open interval in the sense of the specification:
`first <= last`, or `last` is the end-of-space sentinel. -/
def wellFormedRange (p : Nat × Nat) : Prop := p.1 ≤ p.2 ∨ p.2 = BADADDR

/-- Claim C6, counterexample: `getrange` returns a caller-supplied tuple
verbatim, so the malformed pair `(9, 2)` comes back as is — neither
`first <= last` nor `last = BADADDR` holds for the result. -/
theorem c6_counterexample :
    getrange host0 [Arg.tup 9 2] = (9, 2) ∧
    ¬((getrange host0 [Arg.tup 9 2]).1 ≤ (getrange host0 [Arg.tup 9 2]).2 ∨
      (getrange host0 [Arg.tup 9 2]).2 = BADADDR) := by
  constructor
  · rfl
  · decide

/-- Claim C6, amended: `getrange` is a total function (it never raises), and
its result is a well-formed half-open interval provided every caller-supplied
bound pair (leading tuple, leading area, or two leading integers) and the
active selection are themselves well-formed; malformed caller bounds are
passed through verbatim. -/
theorem c6_wellformed (host : Host) (args : List Arg)
    (htup : ∀ a b rest, args = Arg.tup a b :: rest → a ≤ b ∨ b = BADADDR)
    (harea : ∀ s e rest, args = Arg.area s e :: rest → s ≤ e ∨ e = BADADDR)
    (hints : ∀ f l, argfirstOf args = some f → arglastOf args = some l →
      f ≤ l ∨ l = BADADDR)
    (hsel : host.read_selection.1 = true →
      host.read_selection.2.1 ≤ host.read_selection.2.2 ∨
      host.read_selection.2.2 = BADADDR) :
    wellFormedRange (getrange host args) := by
  unfold wellFormedRange
  match args with
  | Arg.tup a b :: rest => exact htup a b rest rfl
  | Arg.area s e :: rest => exact harea s e rest rfl
  | [] =>
    by_cases h : host.read_selection.1 = true
    · have := hsel h
      simp [getrange, argfirstOf, h]
      exact this
    · simp only [Bool.not_eq_true] at h
      simp [getrange, argfirstOf, h]
  | Arg.int n :: rest =>
    rcases hl : arglastOf (Arg.int n :: rest) with _ | l
    · simp [getrange, argfirstOf, hl]
    · have := hints n l rfl hl
      simp [getrange, argfirstOf, hl]
      exact this
  | Arg.str s :: rest =>
    by_cases h : host.read_selection.1 = true
    · have := hsel h
      simp [getrange, argfirstOf, h]
      exact this
    · simp only [Bool.not_eq_true] at h
      simp [getrange, argfirstOf, h]
  | Arg.func p :: rest =>
    by_cases h : host.read_selection.1 = true
    · have := hsel h
      simp [getrange, argfirstOf, h]
      exact this
    · simp only [Bool.not_eq_true] at h
      simp [getrange, argfirstOf, h]

/-- Claim C6 (amended), witness: the call `(2, 7)` with well-formed bounds on
a host whose selection is also well-formed resolves to a well-formed range. -/
theorem c6_wellformed_witness :
    wellFormedRange (getrange hostSel [Arg.int 2, Arg.int 7]) :=
  c6_wellformed hostSel [Arg.int 2, Arg.int 7]
    (by intro a b rest h; simp at h)
    (by intro s e rest h; simp at h)
    (by
      intro f l hf hl
      simp [argfirstOf] at hf
      simp [arglastOf] at hl
      omega)
    (by intro _; left; decide)

/-- Claim C7: over the range `(0x1000, 0x2000)` on a host reporting exactly
the addresses 0x1010 and 0x1020 as undefined bytes, `Undefs` yields exactly
`[0x1010, 0x1020]`, in ascending order. -/
theorem c7_undefs_scenario :
    Undefs hostC7 [Arg.tup 0x1000 0x2000] 10 = [0x1010, 0x1020] := by decide

/-- Claim C8: at any address whose host-reported item size is 16 and element
size is 4, `ArrayItems` yields exactly the four addresses `ea`, `ea+4`,
`ea+8`, `ea+12`, in that order. -/
theorem c8_array_items (host : Host) (ea : Nat)
    (hs : host.ItemSize ea = 16)
    (he : host.get_data_elsize ea (host.getFlags ea) = 4) :
    ArrayItems host [Arg.int ea] = some [ea, ea + 4, ea + 8, ea + 12] := by
  have hr : List.range 4 = [0, 1, 2, 3] := rfl
  simp [ArrayItems, arrayItemsAt, hs, he, hr]

/-- Claim C8, witness: on a host with all item sizes 16 and element sizes 4,
`ArrayItems(0x1000)` yields the four element addresses. -/
theorem c8_array_items_witness :
    ArrayItems hostC8 [Arg.int 0x1000] = some [0x1000, 0x1004, 0x1008, 0x100C] :=
  c8_array_items hostC8 0x1000 rfl rfl

/-- Claim C9: over any range containing exactly one function owning a head
chunk `hc` (not flagged `FUNC_TAIL`, starting before `last`, with no function
after it) and one tail chunk, `Funcs` yields exactly the head chunk's start
address and never any other address such as the tail chunk's start.  The
chunk lookup at `first` (direct, or via the next chunk) may find either
layout of the scenario: the head chunk itself, or the `FUNC_TAIL`-flagged
tail chunk lying below the head — in which case the pre-loop test fires and
steps over it to the head chunk. -/
theorem c9_funcs_single (host : Host) (args : List Arg) (k first last : Nat) (hc c0 : FChunk)
    (hr : getrange host args = (first, last))
    (hseed : (match host.get_fchunk first with
      | some c => some c
      | none => host.get_next_fchunk first) = some c0)
    (hskip : c0 = hc ∨
      (c0.flags &&& FUNC_TAIL ≠ 0 ∧ c0.startEA < last ∧
        host.get_next_fchunk c0.startEA = some hc))
    (hhead : hc.flags &&& FUNC_TAIL = 0)
    (h3 : hc.startEA < last)
    (h4 : host.get_next_func hc.startEA = none) :
    Funcs host args (k + 2) = [hc.startEA] ∧
    ∀ t, t ≠ hc.startEA → t ∉ Funcs host args (k + 2) := by
  have hskipT : skipTails host last (k + 2) (some c0) = some hc := by
    rcases hskip with rfl | ⟨ht1, ht2, ht3⟩
    · rw [skipTails, if_neg]
      intro hcontra
      exact hcontra.2 hhead
    · rw [skipTails, if_pos ⟨ht2, ht1⟩, ht3, skipTails, if_neg]
      intro hcontra
      exact hcontra.2 hhead
  have hfun : funcLoop host last (k + 2) (some hc) = [hc.startEA] := by
    rw [funcLoop, if_pos h3, h4, funcLoop]
  have hmain : Funcs host args (k + 2) = [hc.startEA] := by
    simp only [Funcs, hr, hseed, hskipT, hfun]
  refine ⟨hmain, ?_⟩
  intro t ht
  rw [hmain]
  simp [ht]

/-- Claim C9, witness on the tail-before-head layout: one function owning the
`FUNC_TAIL`-flagged chunk at 0x1000 and the head chunk at 0x2000; over the
range `(0x900, 0x3000)` the lookup seeds at the tail chunk, the pre-loop
skips it, and `Funcs` yields only the head start 0x2000, never the tail
start 0x1000. -/
theorem c9_funcs_single_witness :
    Funcs hostC9b [Arg.tup 0x900 0x3000] 10 = [0x2000] ∧
    (0x1000 : Nat) ∉ Funcs hostC9b [Arg.tup 0x900 0x3000] 10 :=
  ⟨(c9_funcs_single hostC9b [Arg.tup 0x900 0x3000] 8 0x900 0x3000 headChunkB tailChunkB
      rfl (by decide) (Or.inr ⟨by decide, by decide, by decide⟩)
      (by decide) (by decide) rfl).1,
   (c9_funcs_single hostC9b [Arg.tup 0x900 0x3000] 8 0x900 0x3000 headChunkB tailChunkB
      rfl (by decide) (Or.inr ⟨by decide, by decide, by decide⟩)
      (by decide) (by decide) rfl).2 0x1000 (by decide)⟩

/-- Claim C3, counterexample: `Funcs` over the empty range
`(0x1005, 0x1005)` still yields an element.  The chunk lookup at `first`
returns the head chunk containing 0x1005, whose start 0x1000 is below
`last`, so 0x1000 is yielded even though `first == last`. -/
theorem c3_counterexample :
    getrange hostC9 [Arg.tup 0x1005 0x1005] = (0x1005, 0x1005) ∧
    Funcs hostC9 [Arg.tup 0x1005 0x1005] 10 = [0x1000] := by
  constructor
  · rfl
  · decide

/-- Claim C3, amended: every enumerator that both resolves its range through
`getrange` and guards each yield by `ea < last` — `Addrs`, `Undefs`,
`Heads`, `NotTails`, `NonFuncs`, `BytesThat`, and, provided the host's
search primitives never return an address below their starting point,
`Texts` and `Binaries` — yields no elements over an empty range
(`first == last`).  Excluded are `ArrayItems`, which ignores the range and
enumerates the array at its single address argument, and `Funcs` /
`FChunks`, which can yield the start of a chunk that merely contains
`first`. -/
theorem c3_empty_range (host : Host) (args : List Arg) (fuel b : Nat)
    (hr : getrange host args = (b, b))
    (htext : ∀ e s f, host.find_text e s f = BADADDR ∨ e ≤ host.find_text e s f)
    (hbin : ∀ e l s r f, host.find_binary e l s r f = BADADDR ∨
      e ≤ host.find_binary e l s r f) :
    Addrs host args = [] ∧
    Undefs host args fuel = [] ∧
    Heads host args fuel = [] ∧
    NotTails host args fuel = [] ∧
    NonFuncs host args fuel = [] ∧
    (∀ l, BytesThat host args fuel = Except.ok l → l = []) ∧
    (∀ l, Texts host args fuel = Except.ok l → l = []) ∧
    (∀ l, Binaries host args fuel = Except.ok l → l = []) := by
  have hb : ¬(b ≠ BADADDR ∧ b < b) := fun h => Nat.lt_irrefl b h.2
  refine ⟨?_, ?_, ?_, ?_, ?_, ?_, ?_, ?_⟩
  · simp [Addrs, hr]
  · simp only [Undefs, hr]
    rw [if_neg (fun h => Nat.lt_irrefl b h.1)]
    exact stepLoop_eq_nil fuel b hb
  · simp only [Heads, hr]
    rw [if_neg (fun h => Nat.lt_irrefl b h.1)]
    exact stepLoop_eq_nil fuel b hb
  · simp only [NotTails, hr]
    rw [if_neg (fun h => Nat.lt_irrefl b h.1)]
    exact stepLoop_eq_nil fuel b hb
  · simp only [NonFuncs, hr]
    exact nonFuncsLoop_eq_nil fuel b hb
  · simp only [BytesThat, hr]
    cases hfc : findCallable args with
    | none => intro l hl; cases hl
    | some p =>
      intro l hl
      have hl2 : Except.ok (stepLoop (fun e => host.nextthat e b p) b fuel
          (if b < b ∧ p (host.getFlags b) = false then host.nextthat b b p else b)) =
          Except.ok l := hl
      rw [if_neg (fun h => Nat.lt_irrefl b h.1), stepLoop_eq_nil fuel b hb] at hl2
      exact (Except.ok.inj hl2).symm
  · simp only [Texts, hr]
    cases hfs : findString args with
    | none => intro l hl; cases hl
    | some p =>
      intro l hl
      rcases p with ⟨i, s⟩
      have hguard : ¬(host.find_text b s
          (SEARCH_DOWN ||| (match args[i + 1]? with
            | some (Arg.int n) => n
            | _ => 0)) ≠ BADADDR ∧
          host.find_text b s
          (SEARCH_DOWN ||| (match args[i + 1]? with
            | some (Arg.int n) => n
            | _ => 0)) < b) := by
        rcases htext b s (SEARCH_DOWN ||| (match args[i + 1]? with
          | some (Arg.int n) => n
          | _ => 0)) with h | h
        · intro hcon; exact hcon.1 h
        · intro hcon; exact Nat.not_lt.mpr h hcon.2
      have hl2 : Except.ok (stepLoop
          (fun e => host.find_text (host.next_head e b) s
            (SEARCH_DOWN ||| (match args[i + 1]? with
              | some (Arg.int n) => n
              | _ => 0))) b fuel
          (host.find_text b s
            (SEARCH_DOWN ||| (match args[i + 1]? with
              | some (Arg.int n) => n
              | _ => 0)))) = Except.ok l := hl
      rw [stepLoop_eq_nil fuel _ hguard] at hl2
      exact (Except.ok.inj hl2).symm
  · simp only [Binaries, hr]
    cases hfs : findString args with
    | none => intro l hl; cases hl
    | some p =>
      intro l hl
      rcases p with ⟨i, s⟩
      have hguard : ¬(host.find_binary b b s 16 SEARCH_DOWN ≠ BADADDR ∧
          host.find_binary b b s 16 SEARCH_DOWN < b) := by
        rcases hbin b b s 16 SEARCH_DOWN with h | h
        · intro hcon; exact hcon.1 h
        · intro hcon; exact Nat.not_lt.mpr h hcon.2
      have hl2 : Except.ok (stepLoop
          (fun e => host.find_binary e b s 16 (SEARCH_DOWN ||| SEARCH_NEXT)) b fuel
          (host.find_binary b b s 16 SEARCH_DOWN)) = Except.ok l := hl
      rw [stepLoop_eq_nil fuel _ hguard] at hl2
      exact (Except.ok.inj hl2).symm

/-- Claim C3 (amended), witness: on the trivial host, the empty range
`(7, 7)` produces the empty sequence, here checked for `Undefs`. -/
theorem c3_empty_range_witness :
    getrange host0 [Arg.tup 7 7] = (7, 7) ∧ Undefs host0 [Arg.tup 7 7] 10 = [] :=
  ⟨rfl,
    (c3_empty_range host0 [Arg.tup 7 7] 10 7 rfl
      (fun _ _ _ => Or.inl rfl) (fun _ _ _ _ _ => Or.inl rfl)).2.1⟩

/-- Claim C10: whatever the host's stepping primitives return, every address
yielded by `Undefs`, `Heads`, `NotTails` or `BytesThat` is strictly below the
resolved `last` bound and is never `BADADDR`, because the shared loop guard
`ea != BADADDR and ea < last` is checked before each yield. -/
theorem c10_yield_bounds (host : Host) (args : List Arg) (fuel x : Nat) :
    (x ∈ Undefs host args fuel → x < (getrange host args).2 ∧ x ≠ BADADDR) ∧
    (x ∈ Heads host args fuel → x < (getrange host args).2 ∧ x ≠ BADADDR) ∧
    (x ∈ NotTails host args fuel → x < (getrange host args).2 ∧ x ≠ BADADDR) ∧
    (∀ l, BytesThat host args fuel = Except.ok l → x ∈ l →
      x < (getrange host args).2 ∧ x ≠ BADADDR) := by
  refine ⟨?_, ?_, ?_, ?_⟩
  · intro hx
    simp only [Undefs] at hx
    exact stepLoop_mem fuel _ x hx
  · intro hx
    simp only [Heads] at hx
    exact stepLoop_mem fuel _ x hx
  · intro hx
    simp only [NotTails] at hx
    exact stepLoop_mem fuel _ x hx
  · intro l hl hx
    simp only [BytesThat] at hl
    cases hfc : findCallable args with
    | none => rw [hfc] at hl; cases hl
    | some p =>
      rw [hfc] at hl
      have hl2 : Except.ok (stepLoop
          (fun e => host.nextthat e (getrange host args).2 p) (getrange host args).2 fuel
          (if (getrange host args).1 < (getrange host args).2 ∧
              p (host.getFlags (getrange host args).1) = false then
            host.nextthat (getrange host args).1 (getrange host args).2 p
          else (getrange host args).1)) = Except.ok l := hl
      rw [← Except.ok.inj hl2] at hx
      exact stepLoop_mem fuel _ x hx

/-- Claim C10, witness: on the `hostC7` model the address 0x1010 is yielded
by `Undefs` over `(0x1000, 0x2000)`, and it is below the resolved `last`
bound and distinct from `BADADDR`. -/
theorem c10_yield_bounds_witness :
    (0x1010 : Nat) < (getrange hostC7 [Arg.tup 0x1000 0x2000]).2 ∧
    (0x1010 : Nat) ≠ BADADDR :=
  (c10_yield_bounds hostC7 [Arg.tup 0x1000 0x2000] 10 0x1010).1 (by decide)
